import Mathlib

/-!
Verification of the todo-list store and its client logic.

The repository is a single-resource CRUD todo service: a JSON document
persisted to disk, mutated through a fixed set of store operations
(add, update, toggle, delete, clear-completed) and read through
list/get/stats, with a load/save layer that recovers from corruption
and writes atomically via a temp-file rename.

The sources available contain the browser-side logic
(public/logic.js, public/api-logic.js) and the Playwright test setup;
the server-side store itself is not among them, so the store operations
below are modelled from the specification document and marked as such.
The client-side functions (toQuery, the add/update button handlers) are
embedded directly from the JavaScript sources.

Timestamps are abstracted as natural numbers supplied by the caller
(the `now` arguments), and durable storage as an explicit `Doc` /
file-system state threaded through load/save.
-/

/-- One todo entry: id, text, completion flag and the two timestamps. -/
structure Item where
  id : Nat
  text : String
  done : Bool
  createdAt : Nat
  updatedAt : Nat
deriving Repr, DecidableEq

/-- The persisted document: an id allocator and the item sequence. -/
structure Collection where
  nextId : Nat
  items : List Item
deriving Repr, DecidableEq

/-- Whitespace trimming at both ends, as the JavaScript trim() of the
sources: drop leading and trailing whitespace characters. Implemented by
structural recursion over the character list so that it evaluates inside
the kernel. -/
def trimStr (s : String) : String :=
  (((s.toList.dropWhile Char.isWhitespace).reverse.dropWhile Char.isWhitespace).reverse).asString

/-- Lower-casing character by character, for the case-insensitive
search. -/
def lowerStr (s : String) : String := (s.toList.map Char.toLower).asString

namespace Store

/-- Error taxonomy of the store operations. -/
inductive StoreError where
  | validationError
  | notFoundError
deriving Repr, DecidableEq

/-- Modelled from the spec: the seed document, nextId 1 and no items. -/
def seed : Collection := { nextId := 1, items := [] }

/-- Modelled from the spec: text is truncated to 500 characters, never
rejected for length alone. -/
def truncateText (t : String) : String := (t.toList.take 500).asString

/-- Modelled from the spec (the server-side store file is missing from
the sources): Add(text, done) trims the text, rejects it when empty
after trimming, truncates it to 500 characters, allocates id = nextId,
increments nextId and appends the new item with both timestamps set. -/
def add (c : Collection) (text : String) (done : Bool) (now : Nat) :
    Except StoreError (Collection × Item) :=
  let t := trimStr text
  if t = "" then .error .validationError
  else
    let it : Item :=
      { id := c.nextId, text := truncateText t, done := done,
        createdAt := now, updatedAt := now }
    .ok ({ nextId := c.nextId + 1, items := c.items ++ [it] }, it)

/-- Modelled from the spec: whether a supplied text trims to empty. -/
def suppliedEmpty (text? : Option String) : Bool :=
  match text? with
  | some t => trimStr t == ""
  | none => false

/-- Modelled from the spec (server store file missing): Update requires
at least one of text/done, rejects text that trims to empty, fails with
notFoundError when the id is absent, applies only the supplied fields
(trimming and truncating text as Add does), refreshes updatedAt and
leaves id and createdAt untouched. -/
def update (c : Collection) (id : Nat) (text? : Option String)
    (done? : Option Bool) (now : Nat) :
    Except StoreError (Collection × Item) :=
  if text?.isNone && done?.isNone then .error .validationError
  else if suppliedEmpty text? then .error .validationError
  else
    match c.items.find? (fun it => it.id == id) with
    | none => .error .notFoundError
    | some old =>
      let upd : Item :=
        { old with
          text := match text? with
                  | some t => truncateText (trimStr t)
                  | none => old.text,
          done := done?.getD old.done,
          updatedAt := now }
      .ok ({ c with items := c.items.map (fun it => if it.id == id then upd else it) }, upd)

/-- Modelled from the spec (server store file missing): Toggle flips the
done flag of the addressed item, refreshes its updatedAt and changes
nothing else; id must be a positive integer. -/
def toggle (c : Collection) (id : Nat) (now : Nat) :
    Except StoreError (Collection × Item) :=
  if id = 0 then .error .validationError
  else
    match c.items.find? (fun it => it.id == id) with
    | none => .error .notFoundError
    | some old =>
      let upd : Item := { old with done := !old.done, updatedAt := now }
      .ok ({ c with items := c.items.map (fun it => if it.id == id then upd else it) }, upd)

/-- Modelled from the spec (server store file missing): Delete removes
the addressed item, returns its prior value and leaves nextId alone. -/
def delete (c : Collection) (id : Nat) :
    Except StoreError (Collection × Item) :=
  if id = 0 then .error .validationError
  else
    match c.items.find? (fun it => it.id == id) with
    | none => .error .notFoundError
    | some old =>
      .ok ({ c with items := c.items.filter (fun it => !(it.id == id)) }, old)

/-- Modelled from the spec (server store file missing): ClearCompleted
removes every item with done = true and returns the count removed. -/
def clearCompleted (c : Collection) : Collection × Nat :=
  let remaining := c.items.filter (fun it => !it.done)
  ({ c with items := remaining }, c.items.length - remaining.length)

/-- Modelled from the spec: the optional done filter of List. -/
def matchesDone (doneFilter : Option Bool) (it : Item) : Bool :=
  match doneFilter with
  | none => true
  | some b => it.done == b

/-- Substring test on character lists: does the needle occur
contiguously inside the haystack. -/
def containsChars (hay needle : List Char) : Bool :=
  match hay with
  | [] => needle.isEmpty
  | c :: t => needle.isPrefixOf (c :: t) || containsChars t needle

/-- Modelled from the spec: the search filter of List; a term that is
empty after trimming matches everything, otherwise the item text must
contain it as a case-insensitive substring. -/
def matchesSearch (searchTerm : String) (it : Item) : Bool :=
  let q := trimStr searchTerm
  if q = "" then true
  else containsChars (lowerStr it.text).toList (lowerStr q).toList

/-- Modelled from the spec (server store file missing): List applies the
two filters with logical AND and returns the survivors sorted ascending
by id. -/
def list (c : Collection) (doneFilter : Option Bool) (searchTerm : String) :
    List Item :=
  List.insertionSort (fun a b => a.id ≤ b.id)
    (c.items.filter (fun it => matchesDone doneFilter it && matchesSearch searchTerm it))

/-- The result record of Stats. -/
structure StatsResult where
  total : Nat
  «open» : Nat
  done : Nat
  nextId : Nat
deriving Repr, DecidableEq

/-- Modelled from the spec (server store file missing): Stats counts the
items, the done items, and reports open as the difference. -/
def stats (c : Collection) : StatsResult :=
  let total := c.items.length
  let doneCount := (c.items.filter (fun it => it.done)).length
  { total := total, «open» := total - doneCount, done := doneCount,
    nextId := c.nextId }

/-- Modelled from the spec: the observable parse states of the persisted
document — absent, unparsable text, structurally invalid shapes, or a
well-shaped record whose nextId may still fail the positivity check. -/
inductive Doc where
  | absent
  | unparsable
  | notObject
  | itemsNotSequence
  | record (nextId : Int) (items : List Item)
deriving Repr, DecidableEq

/-- Modelled from the spec: serializing a Collection to the document. -/
def serialize (c : Collection) : Doc := .record (c.nextId : Int) c.items

/-- Modelled from the spec: structural validation of a parsed document;
it must be a record whose nextId is a positive integer. -/
def decodeDoc (d : Doc) : Option Collection :=
  match d with
  | .record n items => if 1 ≤ n then some { nextId := n.toNat, items := items } else none
  | _ => none

/-- Modelled from the spec (server store file missing): Load reads the
document; any absent, unparsable or structurally invalid state resets
durable storage to the seed document and returns it, a valid document is
returned as-is. The pair is (returned collection, resulting disk state). -/
def load (d : Doc) : Collection × Doc :=
  match decodeDoc d with
  | some c => (c, d)
  | none => (seed, serialize seed)

/-- Durable storage during Save: the canonical document plus an optional
temporary file. -/
structure FS where
  canonical : Doc
  temp : Option Doc
deriving Repr, DecidableEq

/-- Modelled from the spec: the first half of Save writes the full
serialized document to the temporary location. -/
def writeTemp (c : Collection) (fs : FS) : FS :=
  { fs with temp := some (serialize c) }

/-- Modelled from the spec: the second half of Save atomically renames
the temporary file over the canonical location. -/
def renameTemp (fs : FS) : FS :=
  match fs.temp with
  | some d => { canonical := d, temp := none }
  | none => fs

/-- Modelled from the spec (server store file missing): Save = write the
full serialization to a temporary location, then atomic rename; the
canonical document is never truncated in place. -/
def save (c : Collection) (fs : FS) : FS := renameTemp (writeTemp c fs)

/-- One store mutation, with its caller-supplied timestamp. -/
inductive Op where
  | addOp (text : String) (done : Bool) (now : Nat)
  | updateOp (id : Nat) (text? : Option String) (done? : Option Bool) (now : Nat)
  | toggleOp (id : Nat) (now : Nat)
  | deleteOp (id : Nat)
  | clearOp

/-- Applying one mutation to a collection; a failed operation leaves the
collection unchanged. -/
def applyOp (c : Collection) (op : Op) : Collection :=
  match op with
  | .addOp t d n =>
    match add c t d n with
    | .ok (c2, _) => c2
    | .error _ => c
  | .updateOp i t? d? n =>
    match update c i t? d? n with
    | .ok (c2, _) => c2
    | .error _ => c
  | .toggleOp i n =>
    match toggle c i n with
    | .ok (c2, _) => c2
    | .error _ => c
  | .deleteOp i =>
    match delete c i with
    | .ok (c2, _) => c2
    | .error _ => c
  | .clearOp => (clearCompleted c).1

/-- Applying a sequence of mutations left to right. -/
def applyOps (c : Collection) (ops : List Op) : Collection :=
  ops.foldl applyOp c

/-- The ids issued by the successful Adds of a mutation sequence, in
order of issue. -/
def issuedIds (c : Collection) : List Op → List Nat
  | [] => []
  | op :: rest =>
    match op with
    | .addOp t d n =>
      match add c t d n with
      | .ok (c2, it) => it.id :: issuedIds c2 rest
      | .error _ => issuedIds c rest
    | _ => issuedIds (applyOp c op) rest

/-- Well-formedness of a collection: every stored id is below nextId.
This holds in every reachable state. -/
def WF (c : Collection) : Prop := ∀ it ∈ c.items, it.id < c.nextId

end Store

namespace Client

/-- JavaScript values as they reach toQuery: undefined, null, strings,
booleans and (integer) numbers. -/
inductive JSVal where
  | undef
  | null
  | str (s : String)
  | boolean (b : Bool)
  | num (n : Int)
deriving Repr, DecidableEq

/-- JavaScript String(v) coercion on the values above. -/
def jsToString : JSVal → String
  | .undef => "undefined"
  | .null => "null"
  | .str s => s
  | .boolean b => if b then "true" else "false"
  | .num n => toString n

/-- The filter of toQuery (public/logic.js and public/api-logic.js,
lines 41-50): a value is kept unless it is strictly equal to undefined,
null or the empty string. -/
def usable : JSVal → Bool
  | .undef => false
  | .null => false
  | .str s => s != ""
  | .boolean _ => true
  | .num _ => true

/-- Uppercase hexadecimal digit of a value below 16. -/
def hexDigit (n : Nat) : Char :=
  if n < 10 then Char.ofNat (48 + n) else Char.ofNat (55 + n)

/-- Application/x-www-form-urlencoded treatment of one UTF-8 byte, as
URLSearchParams serializes it: space becomes a plus sign, ASCII
alphanumerics and * - . _ pass through, everything else is
percent-encoded in uppercase hex. -/
def encodeByte (b : Nat) : String :=
  if b = 32 then "+"
  else if (65 ≤ b ∧ b ≤ 90) ∨ (97 ≤ b ∧ b ≤ 122) ∨ (48 ≤ b ∧ b ≤ 57) ∨
      b = 42 ∨ b = 45 ∨ b = 46 ∨ b = 95 then
    String.singleton (Char.ofNat b)
  else
    "%" ++ String.singleton (hexDigit (b / 16)) ++ String.singleton (hexDigit (b % 16))

/-- URLSearchParams encoding of a whole string: encode each UTF-8 byte. -/
def urlencode (s : String) : String :=
  String.join (((s.toList.map String.utf8EncodeChar).flatten).map (fun b => encodeByte b.toNat))

/-- One serialized key=value pair of the query string. -/
def pairString (kv : String × JSVal) : String :=
  urlencode kv.1 ++ "=" ++ urlencode (jsToString kv.2)

/-- Joining the serialized pairs with ampersands, as
URLSearchParams.toString does. -/
def joinAmp : List String → String
  | [] => ""
  | [x] => x
  | x :: y :: rest => x ++ "&" ++ joinAmp (y :: rest)

/-- Embedded from toQuery (public/logic.js and public/api-logic.js,
lines 38-53): a falsy params argument yields the empty string; otherwise
the own keys whose values survive the usable filter are appended to a
URLSearchParams in order, each value coerced to a string, and the
serialization is returned prefixed with a question mark — or the empty
string when nothing was appended. `none` stands for a falsy argument and
the association list for the own enumerable keys of the object. -/
def toQuery (params : Option (List (String × JSVal))) : String :=
  match params with
  | none => ""
  | some ps =>
    let kept := ps.filter (fun kv => usable kv.2)
    let s := joinAmp (kept.map pairString)
    if s = "" then "" else "?" ++ s

/-- Embedded from the btnAdd click handler (public/logic.js lines
403-409, public/api-logic.js lines 143-149): trim the text input; when
the trimmed text is empty, show an error and issue no request; otherwise
request the add with the trimmed text and the checkbox state. -/
def btnAddClick (textInp : String) (doneChk : Bool) : Option (String × Bool) :=
  let text := trimStr textInp
  let done := doneChk
  if text = "" then none
  else some (text, done)

/-- The update request a client issues: id plus the optional fields. -/
structure UpdateReq where
  id : Nat
  text? : Option String
  done? : Option Bool
deriving Repr, DecidableEq

/-- Embedded from the btnUpdate click handler (public/logic.js lines
411-428, public/api-logic.js lines 151-170): a zero id blocks the
request; `hasText` is whether the text input trims to something
non-empty; the at-least-one-field guard tests the done flag for being a
boolean, which it always is, so the guard never fires; text is included
untrimmed when hasText holds and done is always included. -/
def btnUpdateClick (idInp : Nat) (textInp : String) (doneChk : Bool) :
    Option UpdateReq :=
  if idInp = 0 then none
  else
    let hasText : Bool := decide ((trimStr textInp).length > 0)
    let doneIsBool : Bool := true
    if !hasText && !doneIsBool then none
    else
      some { id := idInp,
             text? := if hasText then some textInp else none,
             done? := some doneChk }

end Client

/-! ## Store lemmas -/

namespace Store

theorem add_of_trim_empty (c : Collection) (t : String) (d : Bool) (n : Nat)
    (h : trimStr t = "") : add c t d n = .error .validationError := by
  simp [add, h]

theorem add_of_trim_ne (c : Collection) (t : String) (d : Bool) (n : Nat)
    (h : ¬ trimStr t = "") :
    add c t d n =
      .ok ({ nextId := c.nextId + 1,
             items := c.items ++ [{ id := c.nextId, text := truncateText (trimStr t),
                                    done := d, createdAt := n, updatedAt := n }] },
           { id := c.nextId, text := truncateText (trimStr t), done := d,
             createdAt := n, updatedAt := n }) := by
  simp [add, h]

theorem update_ok_cases {c : Collection} {id : Nat} {t? : Option String}
    {d? : Option Bool} {now : Nat} {c2 : Collection} {it : Item}
    (h : update c id t? d? now = .ok (c2, it)) :
    ∃ old, c.items.find? (fun j => j.id == id) = some old ∧
      it.id = old.id ∧ it.createdAt = old.createdAt ∧ it.updatedAt = now ∧
      it.done = d?.getD old.done ∧
      (∀ t, t? = some t → it.text = truncateText (trimStr t)) ∧
      (t? = none → it.text = old.text) ∧
      c2 = { c with items := c.items.map (fun j => if j.id == id then it else j) } := by
  unfold update at h
  split at h
  · exact absurd h (by simp)
  · split at h
    · exact absurd h (by simp)
    · split at h
      · exact absurd h (by simp)
      · rename_i old heq
        simp only [Except.ok.injEq, Prod.mk.injEq] at h
        obtain ⟨hc2, hit⟩ := h
        subst hit
        refine ⟨old, heq, rfl, rfl, rfl, rfl, ?_, ?_, by rw [← hc2]⟩
        · intro t ht; subst ht; rfl
        · intro ht; subst ht; rfl

theorem toggle_ok_cases {c : Collection} {id : Nat} {now : Nat}
    {c2 : Collection} {it : Item}
    (h : toggle c id now = .ok (c2, it)) :
    ∃ old, c.items.find? (fun j => j.id == id) = some old ∧
      it.id = old.id ∧ it.createdAt = old.createdAt ∧ it.updatedAt = now ∧
      it.text = old.text ∧ it.done = !old.done ∧
      c2 = { c with items := c.items.map (fun j => if j.id == id then it else j) } := by
  unfold toggle at h
  split at h
  · exact absurd h (by simp)
  · split at h
    · exact absurd h (by simp)
    · rename_i old heq
      simp only [Except.ok.injEq, Prod.mk.injEq] at h
      obtain ⟨hc2, hit⟩ := h
      subst hit
      exact ⟨old, heq, rfl, rfl, rfl, rfl, rfl, by rw [← hc2]⟩

theorem delete_ok_cases {c : Collection} {id : Nat} {c2 : Collection} {it : Item}
    (h : delete c id = .ok (c2, it)) :
    c.items.find? (fun j => j.id == id) = some it ∧
      c2 = { c with items := c.items.filter (fun j => !(j.id == id)) } := by
  unfold delete at h
  split at h
  · exact absurd h (by simp)
  · split at h
    · exact absurd h (by simp)
    · rename_i old heq
      simp only [Except.ok.injEq, Prod.mk.injEq] at h
      obtain ⟨hc2, hit⟩ := h
      exact ⟨hit ▸ heq, hc2.symm⟩

theorem nextId_applyOp_ge (c : Collection) (op : Op) :
    c.nextId ≤ (applyOp c op).nextId := by
  cases op with
  | addOp t d n =>
    by_cases h : trimStr t = ""
    · simp [applyOp, add_of_trim_empty c t d n h]
    · simp [applyOp, add_of_trim_ne c t d n h]
  | updateOp i t? d? n =>
    cases hres : update c i t? d? n with
    | error e => simp [applyOp, hres]
    | ok p =>
      obtain ⟨c2, it⟩ := p
      obtain ⟨old, -, -, -, -, -, -, -, hc2⟩ := update_ok_cases hres
      simp [applyOp, hres, hc2]
  | toggleOp i n =>
    cases hres : toggle c i n with
    | error e => simp [applyOp, hres]
    | ok p =>
      obtain ⟨c2, it⟩ := p
      obtain ⟨old, -, -, -, -, -, -, hc2⟩ := toggle_ok_cases hres
      simp [applyOp, hres, hc2]
  | deleteOp i =>
    cases hres : delete c i with
    | error e => simp [applyOp, hres]
    | ok p =>
      obtain ⟨c2, it⟩ := p
      obtain ⟨_, hc2⟩ := delete_ok_cases hres
      simp [applyOp, hres, hc2]
  | clearOp => simp [applyOp, clearCompleted]

theorem issuedIds_addOk (c : Collection) (t : String) (d : Bool) (n : Nat)
    (rest : List Op) (h : ¬ trimStr t = "") :
    issuedIds c (Op.addOp t d n :: rest) =
      c.nextId ::
        issuedIds
          { nextId := c.nextId + 1,
            items := c.items ++ [{ id := c.nextId, text := truncateText (trimStr t),
                                   done := d, createdAt := n, updatedAt := n }] }
          rest := by
  rw [issuedIds, add_of_trim_ne c t d n h]

theorem issuedIds_chain_lb (ops : List Op) : ∀ c : Collection,
    List.Chain' (· < ·) (issuedIds c ops) ∧
      ∀ x ∈ issuedIds c ops, c.nextId ≤ x := by
  induction ops with
  | nil => intro c; simp [issuedIds]
  | cons op rest ih =>
    intro c
    cases op with
    | addOp t d n =>
      by_cases h : trimStr t = ""
      · have hr := add_of_trim_empty c t d n h
        constructor
        · simpa [issuedIds, hr] using (ih c).1
        · intro x hx
          rw [issuedIds, hr] at hx
          exact (ih c).2 x hx
      · rw [issuedIds_addOk c t d n rest h]
        constructor
        · refine List.chain'_cons'.2 ⟨?_, (ih _).1⟩
          intro y hy
          have hmem := List.mem_of_mem_head? hy
          have hlb := (ih _).2 y hmem
          exact lt_of_lt_of_le (Nat.lt_succ_self _) hlb
        · intro x hx
          rcases List.mem_cons.1 hx with rfl | hx2
          · exact le_refl _
          · exact le_trans (Nat.le_succ _) ((ih _).2 x hx2)
    | updateOp i t? d? n =>
      refine ⟨?_, ?_⟩
      · exact (ih (applyOp c (Op.updateOp i t? d? n))).1
      · intro x hx
        have hx2 : x ∈ issuedIds (applyOp c (Op.updateOp i t? d? n)) rest := hx
        exact le_trans (nextId_applyOp_ge c (Op.updateOp i t? d? n))
          ((ih (applyOp c (Op.updateOp i t? d? n))).2 x hx2)
    | toggleOp i n =>
      refine ⟨?_, ?_⟩
      · exact (ih (applyOp c (Op.toggleOp i n))).1
      · intro x hx
        have hx2 : x ∈ issuedIds (applyOp c (Op.toggleOp i n)) rest := hx
        exact le_trans (nextId_applyOp_ge c (Op.toggleOp i n))
          ((ih (applyOp c (Op.toggleOp i n))).2 x hx2)
    | deleteOp i =>
      refine ⟨?_, ?_⟩
      · exact (ih (applyOp c (Op.deleteOp i))).1
      · intro x hx
        have hx2 : x ∈ issuedIds (applyOp c (Op.deleteOp i)) rest := hx
        exact le_trans (nextId_applyOp_ge c (Op.deleteOp i))
          ((ih (applyOp c (Op.deleteOp i))).2 x hx2)
    | clearOp =>
      refine ⟨?_, ?_⟩
      · exact (ih (applyOp c Op.clearOp)).1
      · intro x hx
        have hx2 : x ∈ issuedIds (applyOp c Op.clearOp) rest := hx
        exact le_trans (nextId_applyOp_ge c Op.clearOp)
          ((ih (applyOp c Op.clearOp)).2 x hx2)

end Store

namespace Store

theorem wf_seed : WF seed := by
  intro it h
  simp [seed] at h

theorem wf_applyOp {c : Collection} (op : Op) (h : WF c) : WF (applyOp c op) := by
  cases op with
  | addOp t d n =>
    by_cases ht : trimStr t = ""
    · simpa [applyOp, add_of_trim_empty c t d n ht] using h
    · rw [applyOp, add_of_trim_ne c t d n ht]
      intro j hj
      rcases List.mem_append.1 hj with hj1 | hj2
      · exact lt_trans (h j hj1) (Nat.lt_succ_self _)
      · simp only [List.mem_singleton] at hj2
        subst hj2
        exact Nat.lt_succ_self _
  | updateOp i t? d? n =>
    cases hres : update c i t? d? n with
    | error e => simpa [applyOp, hres] using h
    | ok p =>
      obtain ⟨c2, it⟩ := p
      obtain ⟨old, hfind, hid, -, -, -, -, -, hc2⟩ := update_ok_cases hres
      have hgoal : applyOp c (Op.updateOp i t? d? n) = c2 := by rw [applyOp, hres]
      rw [hgoal, hc2]
      intro j hj
      rcases List.mem_map.1 hj with ⟨i0, hi0, hfi⟩
      by_cases hcase : (i0.id == i) = true
      · rw [if_pos hcase] at hfi
        rw [← hfi, hid]
        exact h old (List.mem_of_find?_eq_some hfind)
      · rw [if_neg hcase] at hfi
        rw [← hfi]
        exact h i0 hi0
  | toggleOp i n =>
    cases hres : toggle c i n with
    | error e => simpa [applyOp, hres] using h
    | ok p =>
      obtain ⟨c2, it⟩ := p
      obtain ⟨old, hfind, hid, -, -, -, -, hc2⟩ := toggle_ok_cases hres
      have hgoal : applyOp c (Op.toggleOp i n) = c2 := by rw [applyOp, hres]
      rw [hgoal, hc2]
      intro j hj
      rcases List.mem_map.1 hj with ⟨i0, hi0, hfi⟩
      by_cases hcase : (i0.id == i) = true
      · rw [if_pos hcase] at hfi
        rw [← hfi, hid]
        exact h old (List.mem_of_find?_eq_some hfind)
      · rw [if_neg hcase] at hfi
        rw [← hfi]
        exact h i0 hi0
  | deleteOp i =>
    cases hres : delete c i with
    | error e => simpa [applyOp, hres] using h
    | ok p =>
      obtain ⟨c2, it⟩ := p
      obtain ⟨-, hc2⟩ := delete_ok_cases hres
      have hgoal : applyOp c (Op.deleteOp i) = c2 := by rw [applyOp, hres]
      rw [hgoal, hc2]
      intro j hj
      exact h j (List.mem_filter.1 hj).1
  | clearOp =>
    intro j hj
    have hj2 : j ∈ c.items.filter (fun it => !it.done) := hj
    exact h j (List.mem_filter.1 hj2).1

theorem applyOps_all_adds_nextId (ops : List Op) : ∀ c : Collection,
    (∀ op ∈ ops, ∃ t d n, op = Op.addOp t d n ∧ ¬ trimStr t = "") →
    (applyOps c ops).nextId = c.nextId + ops.length := by
  induction ops with
  | nil => intro c _; simp [applyOps]
  | cons op rest ih =>
    intro c hall
    obtain ⟨t, d, n, rfl, ht⟩ := hall op (List.mem_cons_self op rest)
    have hstep : applyOps c (Op.addOp t d n :: rest) =
        applyOps (applyOp c (Op.addOp t d n)) rest := rfl
    rw [hstep, ih _ (fun o ho => hall o (List.mem_cons_of_mem _ ho))]
    rw [applyOp, add_of_trim_ne c t d n ht]
    show c.nextId + 1 + rest.length = c.nextId + (rest.length + 1)
    omega

theorem decodeDoc_load {d : Doc} {c : Collection} (h : decodeDoc d = some c) :
    load d = (c, d) := by
  simp [load, h]

theorem decodeDoc_none_load {d : Doc} (h : decodeDoc d = none) :
    load d = (seed, serialize seed) := by
  simp [load, h]

theorem load_fst_nextId_pos (d : Doc) : 1 ≤ (load d).1.nextId := by
  cases d with
  | record n items =>
    by_cases hn : 1 ≤ n
    · have hdec : decodeDoc (Doc.record n items) =
          some { nextId := n.toNat, items := items } := by
        simp [decodeDoc, hn]
      rw [decodeDoc_load hdec]
      show 1 ≤ n.toNat
      omega
    · have hdec : decodeDoc (Doc.record n items) = none := by
        simp [decodeDoc, hn]
      rw [decodeDoc_none_load hdec]
      exact le_refl _
  | absent => simp [load, decodeDoc, seed]
  | unparsable => simp [load, decodeDoc, seed]
  | notObject => simp [load, decodeDoc, seed]
  | itemsNotSequence => simp [load, decodeDoc, seed]

theorem load_serialize (c : Collection) (h : 1 ≤ c.nextId) :
    load (serialize c) = (c, serialize c) := by
  have hdec : decodeDoc (serialize c) = some c := by
    simp only [decodeDoc, serialize]
    rw [if_pos (by exact_mod_cast h)]
    simp [Int.toNat_natCast]
  exact decodeDoc_load hdec

end Store

/-! ## Claim theorems C1 - C3 -/

open Store in
/-- C1: for every reachable Collection state nextId strictly exceeds
every id ever issued and ids are unique and never reused: along any
mutation sequence the ids issued by Add are strictly increasing and
pairwise distinct; N successful Adds from the seed leave nextId equal to
1 + N; Delete never decreases nextId; well-formedness (every stored id
below nextId) holds in the seed and is preserved by every operation, so
it holds in every reachable state; and an id removed by Delete is never
reissued by any subsequent Add. -/
theorem c1_id_allocation :
    (∀ (c : Collection) (ops : List Op),
        List.Chain' (· < ·) (issuedIds c ops) ∧ (issuedIds c ops).Nodup) ∧
    (∀ ops : List Op,
        (∀ op ∈ ops, ∃ t d n, op = Op.addOp t d n ∧ ¬ trimStr t = "") →
        (applyOps seed ops).nextId = 1 + ops.length) ∧
    (∀ (c : Collection) (id : Nat), c.nextId ≤ (applyOp c (Op.deleteOp id)).nextId) ∧
    (WF seed ∧ ∀ (c : Collection) (op : Op), WF c → WF (applyOp c op)) ∧
    (∀ (c c2 : Collection) (id x : Nat) (it : Item) (ops : List Op),
        WF c → delete c id = .ok (c2, it) → x ∈ issuedIds c2 ops → it.id ≠ x) := by
  refine ⟨?_, ?_, ?_, ⟨wf_seed, fun c op => wf_applyOp op⟩, ?_⟩
  · intro c ops
    obtain ⟨hchain, -⟩ := issuedIds_chain_lb ops c
    exact ⟨hchain, List.Pairwise.nodup (List.chain'_iff_pairwise.1 hchain)⟩
  · intro ops hall
    rw [applyOps_all_adds_nextId ops seed hall]
    rfl
  · intro c id
    exact nextId_applyOp_ge c (Op.deleteOp id)
  · intro c c2 id x it ops hwf hdel hx
    obtain ⟨hfind, hc2⟩ := delete_ok_cases hdel
    have hmem : it ∈ c.items := List.mem_of_find?_eq_some hfind
    have hlt : it.id < c.nextId := hwf it hmem
    have hlb := (issuedIds_chain_lb ops c2).2 x hx
    have hnid : c2.nextId = c.nextId := by rw [hc2]
    omega

open Store in
/-- Witness for C1: two successful adds from the seed leave nextId at 3,
and after deleting id 1 from a two-id history a subsequent add issues
id 2, not the deleted id 1. -/
theorem c1_id_allocation_witness :
    (applyOps Store.seed
        [Op.addOp ("milk") false 0, Op.addOp ("eggs") true 1]).nextId = 1 + 2 ∧
    ({ id := 1, text := ("a"), done := false, createdAt := 0, updatedAt := 0 } : Item).id ≠ 2 := by
  constructor
  · exact c1_id_allocation.2.1 [Op.addOp ("milk") false 0, Op.addOp ("eggs") true 1]
      (by
        intro op hop
        rcases List.mem_cons.1 hop with h | hop2
        · exact ⟨("milk"), false, 0, h, by decide⟩
        rcases List.mem_cons.1 hop2 with h | hop3
        · exact ⟨("eggs"), true, 1, h, by decide⟩
        exact absurd hop3 (by simp))
  · exact c1_id_allocation.2.2.2.2
      { nextId := 2,
        items := [{ id := 1, text := ("a"), done := false, createdAt := 0, updatedAt := 0 }] }
      { nextId := 2, items := [] } 1 2
      { id := 1, text := ("a"), done := false, createdAt := 0, updatedAt := 0 }
      [Op.addOp ("b") false 0]
      (by intro it h; rcases List.mem_singleton.1 h with rfl; decide)
      (by rfl)
      (by decide)

open Store in
/-- C2: Load is total and never surfaces an error: an absent, unparsable
or structurally invalid document (wrong shape, or nextId not a positive
integer) yields the seed collection and persists it before returning; a
present valid document is returned exactly; and in every case the
returned collection is valid and the resulting disk state is its
serialization. -/
theorem c2_load_total :
    (load Doc.absent = (seed, serialize seed)) ∧
    (load Doc.unparsable = (seed, serialize seed)) ∧
    (load Doc.notObject = (seed, serialize seed)) ∧
    (load Doc.itemsNotSequence = (seed, serialize seed)) ∧
    (∀ (n : Int) (items : List Item), n < 1 →
        load (Doc.record n items) = (seed, serialize seed)) ∧
    (∀ (n : Int) (items : List Item), 1 ≤ n →
        load (Doc.record n items) =
          ({ nextId := n.toNat, items := items }, Doc.record n items)) ∧
    (∀ d : Doc, 1 ≤ (load d).1.nextId ∧ (load d).2 = serialize (load d).1) := by
  refine ⟨by simp [load, decodeDoc], by simp [load, decodeDoc],
    by simp [load, decodeDoc], by simp [load, decodeDoc], ?_, ?_, ?_⟩
  · intro n items hn
    apply decodeDoc_none_load
    simp only [decodeDoc]
    rw [if_neg (by omega)]
  · intro n items hn
    apply decodeDoc_load
    simp [decodeDoc, hn]
  · intro d
    refine ⟨load_fst_nextId_pos d, ?_⟩
    cases d with
    | record n items =>
      by_cases hn : 1 ≤ n
      · have hdec : decodeDoc (Doc.record n items) =
            some { nextId := n.toNat, items := items } := by
          simp [decodeDoc, hn]
        rw [decodeDoc_load hdec]
        show Doc.record n items = serialize { nextId := n.toNat, items := items }
        rw [serialize]
        congr 1
        exact (Int.toNat_of_nonneg (by omega)).symm
      · have hdec : decodeDoc (Doc.record n items) = none := by
          simp only [decodeDoc]
          rw [if_neg hn]
        rw [decodeDoc_none_load hdec]
    | absent => rfl
    | unparsable => rfl
    | notObject => rfl
    | itemsNotSequence => rfl

open Store in
/-- Witness for C2: a document whose nextId is 0 resets to the seed; a
valid document with nextId 7 is returned exactly. -/
theorem c2_load_total_witness :
    load (Doc.record 0 []) = (seed, serialize seed) ∧
    load (Doc.record 7 []) = ({ nextId := 7, items := [] }, Doc.record 7 []) := by
  constructor
  · exact c2_load_total.2.2.2.2.1 0 [] (by decide)
  · exact c2_load_total.2.2.2.2.2.1 7 [] (by decide)

open Store in
/-- C3: Save followed by Load is the identity on valid collections;
Save(Load()) followed by Load() returns the loaded collection, equal to
the originally persisted one whenever the persisted document was valid;
and Save touches the canonical location only through the completed
atomic rename — writing the temporary file leaves the canonical document
untouched, and the completed Save replaces it with the full
serialization, never truncating it in place. -/
theorem c3_save_load_roundtrip :
    (∀ c : Collection, 1 ≤ c.nextId → load (serialize c) = (c, serialize c)) ∧
    (∀ d : Doc, load (serialize (load d).1) = ((load d).1, serialize (load d).1)) ∧
    (∀ (d : Doc) (c : Collection), decodeDoc d = some c →
        (load (serialize (load d).1)).1 = c) ∧
    (∀ (c : Collection) (fs : FS), (writeTemp c fs).canonical = fs.canonical) ∧
    (∀ (c : Collection) (fs : FS),
        (save c fs).canonical = serialize c ∧ (save c fs).temp = none) := by
  refine ⟨load_serialize, ?_, ?_, fun c fs => rfl, fun c fs => ⟨rfl, rfl⟩⟩
  · intro d
    exact load_serialize _ (load_fst_nextId_pos d)
  · intro d c h
    have hpos : 1 ≤ c.nextId := by
      have h2 := load_fst_nextId_pos d
      rwa [decodeDoc_load h] at h2
    rw [decodeDoc_load h]
    rw [load_serialize c hpos]

open Store in
/-- Witness for C3: the round trip at a concrete valid collection and a
concrete valid persisted document. -/
theorem c3_save_load_roundtrip_witness :
    load (serialize { nextId := 3, items := [] }) =
      ({ nextId := 3, items := [] }, serialize { nextId := 3, items := [] }) ∧
    (load (serialize (load (Doc.record 2 [])).1)).1 =
      { nextId := 2, items := ([] : List Item) } := by
  constructor
  · exact c3_save_load_roundtrip.1 { nextId := 3, items := [] } (by decide)
  · exact c3_save_load_roundtrip.2.2.1 (Doc.record 2 [])
      { nextId := 2, items := [] } (by decide)

/-! ## List and Stats lemmas -/

namespace Store

theorem matchesSearch_empty (it : Item) : matchesSearch ("") it = true := by
  have h : trimStr ("") = "" := by decide
  simp [matchesSearch, h]

theorem matchesDone_none (it : Item) : matchesDone none it = true := rfl

theorem filter_nofilter (c : Collection) :
    c.items.filter (fun it => matchesDone none it && matchesSearch ("") it) = c.items := by
  have h : (fun it => matchesDone none it && matchesSearch ("") it) = fun _ : Item => true := by
    funext it
    simp [matchesDone_none, matchesSearch_empty]
  rw [h, List.filter_true]

theorem list_none_perm (c : Collection) : (list c none ("")).Perm c.items := by
  rw [list, filter_nofilter]
  exact List.perm_insertionSort _ _

theorem list_sorted (c : Collection) (df : Option Bool) (q : String) :
    (list c df q).Sorted (fun a b : Item => a.id ≤ b.id) := by
  haveI : IsTotal Item (fun a b => a.id ≤ b.id) := ⟨fun a b => Nat.le_total a.id b.id⟩
  haveI : IsTrans Item (fun a b => a.id ≤ b.id) := ⟨fun a b c hab hbc => le_trans hab hbc⟩
  exact List.sorted_insertionSort _ _

theorem sorted_strict_of_nodup {l : List Item}
    (hs : l.Sorted (fun a b : Item => a.id ≤ b.id))
    (hnd : (l.map Item.id).Nodup) : l.Sorted (fun a b : Item => a.id < b.id) := by
  have hne : l.Pairwise (fun a b : Item => a.id ≠ b.id) := List.pairwise_map.1 hnd
  exact List.Pairwise.imp (fun h => lt_of_le_of_ne h.1 h.2) (hs.and hne)

theorem list_none_eq_of_perm (c c2 : Collection)
    (hnd : (c.items.map Item.id).Nodup) (hperm : c2.items.Perm c.items) :
    list c2 none ("") = list c none ("") := by
  have hp : (list c2 none ("")).Perm (list c none ("")) :=
    ((list_none_perm c2).trans hperm).trans (list_none_perm c).symm
  have hnd1 : ((list c none ("")).map Item.id).Nodup :=
    hnd.perm (List.Perm.map Item.id (list_none_perm c)).symm
  have hnd2 : ((list c2 none ("")).map Item.id).Nodup :=
    hnd1.perm (List.Perm.map Item.id hp).symm
  have hs1 := sorted_strict_of_nodup (list_sorted c none ("")) hnd1
  have hs2 := sorted_strict_of_nodup (list_sorted c2 none ("")) hnd2
  haveI : IsAntisymm Item (fun a b : Item => a.id < b.id) :=
    ⟨fun a b h1 h2 => absurd (lt_trans h1 h2) (lt_irrefl _)⟩
  exact List.eq_of_perm_of_sorted hp hs2 hs1

theorem mem_list_iff (c : Collection) (df : Option Bool) (q : String) (it : Item) :
    it ∈ list c df q ↔
      it ∈ c.items ∧ matchesDone df it = true ∧ matchesSearch q it = true := by
  rw [list]
  rw [List.Perm.mem_iff (List.perm_insertionSort _ _)]
  simp [List.mem_filter, and_assoc]

end Store

/-! ## Claim theorems C4 - C6 -/

open Store in
/-- C4: List with no filters returns exactly the items of the
collection, each exactly once (a permutation of the stored sequence),
sorted ascending by id; two collections holding the same items in any
order list identically (given the unique-id invariant); and the empty
collection lists to the empty sequence, with no error possible since
list is a total function. -/
theorem c4_list_no_filter :
    (∀ c : Collection, (list c none ("")).Perm c.items) ∧
    (∀ c : Collection, (list c none ("")).Sorted (fun a b : Item => a.id ≤ b.id)) ∧
    (∀ c c2 : Collection, (c.items.map Item.id).Nodup → c2.items.Perm c.items →
        list c2 none ("") = list c none ("")) ∧
    list seed none ("") = [] := by
  refine ⟨list_none_perm, fun c => list_sorted c none (""), ?_, rfl⟩
  intro c c2 hnd hperm
  exact list_none_eq_of_perm c c2 hnd hperm

open Store in
/-- Witness for C4: two collections holding the same two items in
opposite orders produce the same sorted listing. -/
theorem c4_list_no_filter_witness :
    list { nextId := 3,
           items := [{ id := 2, text := ("b"), done := true, createdAt := 0, updatedAt := 0 },
                     { id := 1, text := ("a"), done := false, createdAt := 0, updatedAt := 0 }] }
        none ("") =
      list { nextId := 3,
             items := [{ id := 1, text := ("a"), done := false, createdAt := 0, updatedAt := 0 },
                       { id := 2, text := ("b"), done := true, createdAt := 0, updatedAt := 0 }] }
        none ("") := by
  exact c4_list_no_filter.2.2.1
    { nextId := 3,
      items := [{ id := 1, text := ("a"), done := false, createdAt := 0, updatedAt := 0 },
                { id := 2, text := ("b"), done := true, createdAt := 0, updatedAt := 0 }] }
    { nextId := 3,
      items := [{ id := 2, text := ("b"), done := true, createdAt := 0, updatedAt := 0 },
                { id := 1, text := ("a"), done := false, createdAt := 0, updatedAt := 0 }] }
    (by decide) (by decide)

open Store in
/-- C5: List(done=true) and List(done=false) partition List(): their
concatenation is a permutation of the unfiltered listing and no item
lies in both; and with both a done filter and a search term the result
is exactly the items satisfying both predicates (logical AND). -/
theorem c5_partition_filters :
    (∀ c : Collection,
        (list c (some true) ("") ++ list c (some false) ("")).Perm (list c none (""))) ∧
    (∀ (c : Collection) (it : Item),
        it ∈ list c (some true) ("") → it ∉ list c (some false) ("")) ∧
    (∀ (c : Collection) (b : Bool) (q : String) (it : Item),
        it ∈ list c (some b) q ↔
          it ∈ c.items ∧ it.done = b ∧ matchesSearch q it = true) := by
  refine ⟨?_, ?_, ?_⟩
  · intro c
    have e1 : (fun it : Item => matchesDone (some true) it && matchesSearch ("") it) =
        fun it : Item => it.done := by
      funext it
      cases hdone : it.done <;> simp [matchesDone, matchesSearch_empty, hdone]
    have e2 : (fun it : Item => matchesDone (some false) it && matchesSearch ("") it) =
        fun it : Item => !it.done := by
      funext it
      cases hdone : it.done <;> simp [matchesDone, matchesSearch_empty, hdone]
    have h1 : (list c (some true) ("")).Perm (c.items.filter (fun it => it.done)) := by
      rw [list, e1]
      exact List.perm_insertionSort _ _
    have h2 : (list c (some false) ("")).Perm (c.items.filter (fun it => !it.done)) := by
      rw [list, e2]
      exact List.perm_insertionSort _ _
    exact ((h1.append h2).trans
      (List.filter_append_perm (fun it : Item => it.done) c.items)).trans
      (list_none_perm c).symm
  · intro c it h1 h2
    have m1 := (mem_list_iff c (some true) ("") it).1 h1
    have m2 := (mem_list_iff c (some false) ("") it).1 h2
    have d1 : it.done = true := by simpa [matchesDone] using m1.2.1
    have d2 : it.done = false := by simpa [matchesDone] using m2.2.1
    rw [d1] at d2
    exact Bool.noConfusion d2
  · intro c b q it
    rw [mem_list_iff]
    constructor
    · rintro ⟨hm, hd, hs⟩
      exact ⟨hm, by simpa [matchesDone] using hd, hs⟩
    · rintro ⟨hm, hd, hs⟩
      exact ⟨hm, by simp [matchesDone, hd], hs⟩

open Store in
/-- Witness for C5: a done item appears in List(done=true) and therefore
not in List(done=false). -/
theorem c5_partition_filters_witness :
    ({ id := 1, text := ("a"), done := true, createdAt := 0, updatedAt := 0 } : Item) ∉
      list { nextId := 2,
             items := [{ id := 1, text := ("a"), done := true, createdAt := 0, updatedAt := 0 }] }
        (some false) ("") := by
  exact c5_partition_filters.2.1
    { nextId := 2,
      items := [{ id := 1, text := ("a"), done := true, createdAt := 0, updatedAt := 0 }] }
    { id := 1, text := ("a"), done := true, createdAt := 0, updatedAt := 0 }
    (by decide)

open Store in
/-- C6: Stats returns the record with total the number of items, done
the number of completed items, open their difference and the current
nextId; and total always equals open plus done. -/
theorem c6_stats :
    (∀ c : Collection,
        stats c = { total := c.items.length,
                    «open» := c.items.length -
                      (c.items.filter (fun it => it.done)).length,
                    done := (c.items.filter (fun it => it.done)).length,
                    nextId := c.nextId }) ∧
    (∀ c : Collection, (stats c).total = (stats c).«open» + (stats c).done) := by
  refine ⟨fun c => rfl, ?_⟩
  intro c
  show c.items.length =
    (c.items.length - (c.items.filter (fun it => it.done)).length) +
      (c.items.filter (fun it => it.done)).length
  have h := List.length_filter_le (fun it : Item => it.done) c.items
  omega

/-! ## Claim theorems C7 - C9 -/

open Store Client in
/-- C7: Add fails with ValidationError exactly when the text is empty
after trimming and is never rejected for length alone: any text with a
non-empty trim is accepted and stored as the trimmed text truncated to
at most 500 characters (texts already within 500 characters are stored
untruncated); and the client-side add handlers trim the text and refuse
to issue the request exactly when the trimmed text is empty, sending the
trimmed text otherwise. -/
theorem c7_add_validation :
    (∀ (c : Collection) (t : String) (d : Bool) (now : Nat),
        add c t d now = .error .validationError ↔ trimStr t = "") ∧
    (∀ (c : Collection) (t : String) (d : Bool) (now : Nat), ¬ trimStr t = "" →
        ∃ c2 it, add c t d now = .ok (c2, it) ∧
          it.text = truncateText (trimStr t)) ∧
    (∀ t : String, (truncateText t).length ≤ 500 ∧
        (t.length ≤ 500 → truncateText t = t)) ∧
    (∀ (textInp : String) (doneChk : Bool),
        (btnAddClick textInp doneChk = none ↔ trimStr textInp = "") ∧
        (∀ text done, btnAddClick textInp doneChk = some (text, done) →
            text = trimStr textInp ∧ ¬ text = "" ∧ done = doneChk)) := by
  refine ⟨?_, ?_, ?_, ?_⟩
  · intro c t d now
    constructor
    · intro he
      by_contra hne
      rw [add_of_trim_ne c t d now hne] at he
      exact Except.noConfusion he
    · intro h
      exact add_of_trim_empty c t d now h
  · intro c t d now hne
    exact ⟨_, _, add_of_trim_ne c t d now hne, rfl⟩
  · intro t
    constructor
    · show (t.toList.take 500).length ≤ 500
      rw [List.length_take]
      exact min_le_left _ _
    · intro hle
      show (t.toList.take 500).asString = t
      have hle2 : t.toList.length ≤ 500 := hle
      rw [List.take_of_length_le hle2]
      rfl
  · intro textInp doneChk
    constructor
    · constructor
      · intro h
        by_contra hne
        simp [btnAddClick, hne] at h
      · intro h
        simp [btnAddClick, h]
    · intro text done h
      by_cases hne : trimStr textInp = ""
      · simp [btnAddClick, hne] at h
      · simp only [btnAddClick] at h
        rw [if_neg hne] at h
        simp only [Option.some.injEq, Prod.mk.injEq] at h
        obtain ⟨h1, h2⟩ := h
        exact ⟨h1.symm, by rw [← h1]; exact hne, h2.symm⟩

open Store Client in
/-- Witness for C7: a padded text is accepted and stored trimmed, and
the client handler refuses a whitespace-only input. -/
theorem c7_add_validation_witness :
    (∃ c2 it, add Store.seed ("  hi  ") false 5 = .ok (c2, it) ∧
        it.text = truncateText (trimStr ("  hi  "))) ∧
    btnAddClick ("   ") true = none := by
  constructor
  · exact c7_add_validation.2.1 Store.seed ("  hi  ") false 5 (by decide)
  · exact (c7_add_validation.2.2.2 ("   ") true).1.2 (by decide)

open Store Client in
/-- C8: Update fails with ValidationError when no field is supplied or
when the supplied text trims to empty, fails with NotFoundError when at
least one field is supplied, the text does not trim to empty, and no
item carries the id; and every update request the client handler issues
carries at least one of text/done. -/
theorem c8_update_validation :
    (∀ (c : Collection) (id now : Nat),
        update c id none none now = .error .validationError) ∧
    (∀ (c : Collection) (id now : Nat) (t : String) (d? : Option Bool),
        trimStr t = "" → update c id (some t) d? now = .error .validationError) ∧
    (∀ (c : Collection) (id now : Nat) (t? : Option String) (d? : Option Bool),
        (t?.isSome = true ∨ d?.isSome = true) → suppliedEmpty t? = false →
        c.items.find? (fun it => it.id == id) = none →
        update c id t? d? now = .error .notFoundError) ∧
    (∀ (idInp : Nat) (textInp : String) (doneChk : Bool) (req : UpdateReq),
        btnUpdateClick idInp textInp doneChk = some req →
        (req.text?.isSome = true ∨ req.done?.isSome = true)) := by
  refine ⟨?_, ?_, ?_, ?_⟩
  · intro c id now
    rfl
  · intro c id now t d? h
    have hse : suppliedEmpty (some t) = true := by
      simp [suppliedEmpty, h]
    unfold update
    rw [if_neg (by simp), if_pos (by rw [hse])]
  · intro c id now t? d? hsome hse hfind
    have hb : (t?.isNone && d?.isNone) = false := by
      rcases hsome with h | h
      · rcases Option.isSome_iff_exists.1 h with ⟨x, rfl⟩
        simp
      · rcases Option.isSome_iff_exists.1 h with ⟨x, rfl⟩
        simp
    unfold update
    rw [if_neg (by rw [hb]; exact Bool.false_ne_true), if_neg (by rw [hse]; exact Bool.false_ne_true), hfind]
  · intro idInp textInp doneChk req h
    simp only [btnUpdateClick] at h
    by_cases hid : idInp = 0
    · rw [if_pos hid] at h
      exact Option.noConfusion h
    · rw [if_neg hid] at h
      simp only [Bool.not_true, Bool.and_false, Bool.false_eq_true, if_false,
        Option.some.injEq] at h
      right
      rw [← h]
      rfl

open Store Client in
/-- Witness for C8: updating a nonexistent id with text x yields
NotFoundError, no fields yields ValidationError, and a concrete client
request carries the done field. -/
theorem c8_update_validation_witness :
    update Store.seed 999 (some ("x")) none 0 = .error .notFoundError ∧
    update Store.seed 1 none none 0 = .error .validationError ∧
    (({ id := 2, text? := none, done? := some true } : UpdateReq).text?.isSome = true ∨
      ({ id := 2, text? := none, done? := some true } : UpdateReq).done?.isSome = true) := by
  refine ⟨?_, ?_, ?_⟩
  · exact c8_update_validation.2.2.1 Store.seed 999 0 (some ("x")) none
      (Or.inl rfl) (by decide) rfl
  · exact c8_update_validation.1 Store.seed 1 0
  · exact c8_update_validation.2.2.2 2 ("") true
      { id := 2, text? := none, done? := some true } (by decide)

open Store in
/-- C9: a successful Update keeps unsupplied fields at their prior
values, never changes the id or createdAt of the target item, preserves
the number of items, and leaves every other item in the collection
unchanged; Toggle likewise preserves id, createdAt and text of the
target and every other item. -/
theorem c9_update_frame :
    (∀ (c : Collection) (id : Nat) (t? : Option String) (d? : Option Bool)
        (now : Nat) (c2 : Collection) (it : Item),
        update c id t? d? now = .ok (c2, it) →
        ∃ old, c.items.find? (fun j => j.id == id) = some old ∧
          it.id = old.id ∧ it.createdAt = old.createdAt ∧
          (t? = none → it.text = old.text) ∧
          (d? = none → it.done = old.done) ∧
          c2.items.length = c.items.length ∧
          (∀ j ∈ c.items, j.id ≠ id → j ∈ c2.items)) ∧
    (∀ (c : Collection) (id now : Nat) (c2 : Collection) (it : Item),
        toggle c id now = .ok (c2, it) →
        ∃ old, c.items.find? (fun j => j.id == id) = some old ∧
          it.id = old.id ∧ it.createdAt = old.createdAt ∧ it.text = old.text ∧
          c2.items.length = c.items.length ∧
          (∀ j ∈ c.items, j.id ≠ id → j ∈ c2.items)) := by
  constructor
  · intro c id t? d? now c2 it h
    obtain ⟨old, hfind, hid, hca, hua, hdone, htext, htextn, hc2⟩ := update_ok_cases h
    refine ⟨old, hfind, hid, hca, ?_, ?_, ?_, ?_⟩
    · intro ht
      exact htextn ht
    · intro hd
      rw [hdone, hd]
      rfl
    · rw [hc2]
      exact List.length_map _ _
    · intro j hj hne
      rw [hc2]
      refine List.mem_map.2 ⟨j, hj, ?_⟩
      rw [if_neg ?hneb]
      case hneb =>
        intro hb
        exact hne (by simpa using hb)
  · intro c id now c2 it h
    obtain ⟨old, hfind, hid, hca, hua, htext, hdone, hc2⟩ := toggle_ok_cases h
    refine ⟨old, hfind, hid, hca, htext, ?_, ?_⟩
    · rw [hc2]
      exact List.length_map _ _
    · intro j hj hne
      rw [hc2]
      refine List.mem_map.2 ⟨j, hj, ?_⟩
      rw [if_neg ?hneb2]
      case hneb2 =>
        intro hb
        exact hne (by simpa using hb)

open Store in
/-- Witness for C9: updating only the done flag of item 1 keeps its text
and createdAt, preserves the item count, and the concrete run
evaluates as the theorem describes. -/
theorem c9_update_frame_witness :
    ∃ old,
      ([{ id := 1, text := ("a"), done := false, createdAt := 3, updatedAt := 3 }] :
          List Item).find? (fun j => j.id == 1) = some old ∧
      ({ id := 1, text := ("a"), done := true, createdAt := 3, updatedAt := 9 } : Item).id = old.id ∧
      ({ id := 1, text := ("a"), done := true, createdAt := 3, updatedAt := 9 } : Item).createdAt = old.createdAt ∧
      ((none : Option String) = none →
        ({ id := 1, text := ("a"), done := true, createdAt := 3, updatedAt := 9 } : Item).text = old.text) ∧
      ((some true : Option Bool) = none →
        ({ id := 1, text := ("a"), done := true, createdAt := 3, updatedAt := 9 } : Item).done = old.done) ∧
      ({ nextId := 2,
         items := [{ id := 1, text := ("a"), done := true, createdAt := 3, updatedAt := 9 }] } :
          Collection).items.length =
        ({ nextId := 2,
           items := [{ id := 1, text := ("a"), done := false, createdAt := 3, updatedAt := 3 }] } :
            Collection).items.length ∧
      (∀ j ∈ ({ nextId := 2,
                items := [{ id := 1, text := ("a"), done := false, createdAt := 3, updatedAt := 3 }] } :
                 Collection).items, j.id ≠ 1 →
        j ∈ ({ nextId := 2,
               items := [{ id := 1, text := ("a"), done := true, createdAt := 3, updatedAt := 9 }] } :
                Collection).items) := by
  exact c9_update_frame.1
    { nextId := 2,
      items := [{ id := 1, text := ("a"), done := false, createdAt := 3, updatedAt := 3 }] }
    1 none (some true) 9
    { nextId := 2,
      items := [{ id := 1, text := ("a"), done := true, createdAt := 3, updatedAt := 9 }] }
    { id := 1, text := ("a"), done := true, createdAt := 3, updatedAt := 9 }
    rfl

/-! ## Client toQuery lemmas -/

namespace Client

theorem pairString_length_pos (kv : String × JSVal) : 0 < (pairString kv).length := by
  show 0 < (urlencode kv.1 ++ "=" ++ urlencode (jsToString kv.2)).length
  rw [String.length_append, String.length_append]
  have h : ("=" : String).length = 1 := rfl
  omega

theorem joinAmp_length_pos (x : String) (rest : List String) (hx : 0 < x.length) :
    0 < (joinAmp (x :: rest)).length := by
  cases rest with
  | nil => simpa [joinAmp] using hx
  | cons y ys =>
    rw [joinAmp, String.length_append, String.length_append]
    omega

theorem ne_empty_of_length_pos {s : String} (h : 0 < s.length) : s ≠ "" := by
  intro he
  rw [he] at h
  exact absurd h (by decide)

theorem toQuery_some_eq (l : List (String × JSVal)) :
    (l.filter (fun kv => usable kv.2) = [] ∧ toQuery (some l) = "") ∨
    (∃ x xs, l.filter (fun kv => usable kv.2) = x :: xs ∧
        toQuery (some l) = "?" ++ joinAmp ((x :: xs).map pairString) ∧
        toQuery (some l) ≠ "") := by
  cases hk : l.filter (fun kv => usable kv.2) with
  | nil =>
    left
    refine ⟨rfl, ?_⟩
    simp [toQuery, hk, joinAmp]
  | cons x xs =>
    right
    have hpos : 0 < (joinAmp ((x :: xs).map pairString)).length :=
      joinAmp_length_pos _ _ (pairString_length_pos x)
    have hne : joinAmp ((x :: xs).map pairString) ≠ "" := ne_empty_of_length_pos hpos
    have heq : toQuery (some l) = "?" ++ joinAmp ((x :: xs).map pairString) := by
      simp only [toQuery, hk]
      rw [if_neg hne]
    refine ⟨x, xs, rfl, heq, ?_⟩
    apply ne_empty_of_length_pos
    rw [heq, String.length_append]
    have h1 : ("?" : String).length = 1 := rfl
    omega

end Client

/-! ## Claim theorem C10 -/

open Client in
/-- C10: toQuery of a falsy argument is the empty string; toQuery of an
object is empty exactly when no own key survives the filter (value not
undefined, null or the empty string); any surviving key makes the result
begin with a question mark; skipped pairs never affect the result; a
single surviving pair serializes as question mark, encoded key, equals
sign, and the value coerced to a string and URL-encoded; and the
concrete examples of the source's doc comment evaluate as documented. -/
theorem c10_toQuery :
    (toQuery none = "") ∧
    (∀ l, toQuery (some l) = "" ↔ ∀ kv ∈ l, usable kv.2 = false) ∧
    (∀ l, (∃ kv ∈ l, usable kv.2 = true) →
        ∃ rest, toQuery (some l) = "?" ++ rest) ∧
    (∀ l, toQuery (some l) = toQuery (some (l.filter (fun kv => usable kv.2)))) ∧
    (∀ k v l, usable v = false →
        toQuery (some ((k, v) :: l)) = toQuery (some l)) ∧
    (∀ k v l, usable v = true → l.filter (fun kv => usable kv.2) = [] →
        toQuery (some ((k, v) :: l)) =
          "?" ++ (urlencode k ++ "=" ++ urlencode (jsToString v))) ∧
    (toQuery (some [(("q"), JSVal.str ("milk")), (("done"), JSVal.boolean false)]) =
      "?q=milk&done=false") ∧
    (toQuery (some [(("a"), JSVal.undef), (("b"), JSVal.null)]) = "") ∧
    (toQuery (some [(("page"), JSVal.num 0), (("limit"), JSVal.num 25)]) =
      "?page=0&limit=25") := by
  refine ⟨rfl, ?_, ?_, ?_, ?_, ?_, by decide, by decide, by decide⟩
  · intro l
    constructor
    · intro h kv hkv
      rcases toQuery_some_eq l with ⟨hnil, -⟩ | ⟨x, xs, -, -, hne⟩
      · by_contra hkv2
        have hkv3 : usable kv.2 = true := by
          cases h2 : usable kv.2
          · exact absurd h2 hkv2
          · rfl
        have : kv ∈ l.filter (fun kv => usable kv.2) :=
          List.mem_filter.2 ⟨hkv, hkv3⟩
        rw [hnil] at this
        exact absurd this (List.not_mem_nil kv)
      · exact absurd h hne
    · intro h
      rcases toQuery_some_eq l with ⟨-, he⟩ | ⟨x, xs, hcons, -, -⟩
      · exact he
      · have : x ∈ l.filter (fun kv => usable kv.2) := by
          rw [hcons]
          exact List.mem_cons_self x xs
        have hx := List.mem_filter.1 this
        rw [h x hx.1] at hx
        exact absurd hx.2 (by simp)
  · intro l hex
    rcases toQuery_some_eq l with ⟨hnil, -⟩ | ⟨x, xs, -, heq, -⟩
    · obtain ⟨kv, hkv, hus⟩ := hex
      have : kv ∈ l.filter (fun kv => usable kv.2) :=
        List.mem_filter.2 ⟨hkv, hus⟩
      rw [hnil] at this
      exact absurd this (List.not_mem_nil kv)
    · exact ⟨_, heq⟩
  · intro l
    have hff : (l.filter (fun kv => usable kv.2)).filter (fun kv => usable kv.2) =
        l.filter (fun kv => usable kv.2) := by
      rw [List.filter_filter]
      simp
    simp only [toQuery, hff]
  · intro k v l hv
    have hc : ((k, v) :: l).filter (fun kv => usable kv.2) =
        l.filter (fun kv => usable kv.2) := by
      rw [List.filter_cons_of_neg]
      simp [hv]
    simp only [toQuery, hc]
  · intro k v l hv hnil
    have hc : ((k, v) :: l).filter (fun kv => usable kv.2) = [(k, v)] := by
      rw [List.filter_cons_of_pos (by simpa using hv), hnil]
    have hpos : 0 < (pairString (k, v)).length := pairString_length_pos (k, v)
    have hne : joinAmp [pairString (k, v)] ≠ "" := by
      simpa [joinAmp] using ne_empty_of_length_pos hpos
    simp only [toQuery, hc]
    rw [if_neg ?hcond]
    case hcond =>
      show ¬ joinAmp (List.map pairString [(k, v)]) = ""
      simpa using hne
    rfl

open Client in
/-- Witness for C10: a skipped null pair leaves the query unchanged, and
a single kept pair serializes with the question mark, encoded key and
encoded coerced value. -/
theorem c10_toQuery_witness :
    toQuery (some [(("a"), JSVal.null), (("q"), JSVal.str ("x"))]) =
      toQuery (some [(("q"), JSVal.str ("x"))]) ∧
    toQuery (some [(("q"), JSVal.str ("x"))]) =
      "?" ++ (urlencode ("q") ++ "=" ++ urlencode (jsToString (JSVal.str ("x")))) := by
  constructor
  · exact c10_toQuery.2.2.2.2.1 ("a") JSVal.null [(("q"), JSVal.str ("x"))] rfl
  · exact c10_toQuery.2.2.2.2.2.1 ("q") (JSVal.str ("x")) [] rfl rfl
